import Mathlib

/-!
Verification of the cross-environment merge engine and conditional
build-graph compiler of `rules_pip` (files `src/piprules/lockfile.py`
and `src/bin/generate_pip_repositories.py`), as a shallow embedding.

Python dicts are modelled as association lists in insertion order
(CPython ≥ 3.7 semantics): `d[k] = v` replaces the value in place when
the key exists and appends otherwise, and iteration follows that order.
Python sets are modelled as duplicate-free lists in insertion order;
the code only observes a set's size and its sole element when the size
is 1, so iteration-order nondeterminism of real Python sets is never
visible.
-/

namespace RulesPip

/-- `d[k]` / `d.get(k)` lookup for a dict modelled as an association list. -/
def alistFind {κ α : Type} [DecidableEq κ] (m : List (κ × α)) (k : κ) : Option α :=
  match m with
  | [] => none
  | (k', v) :: rest => if k' = k then some v else alistFind rest k

/-- `d[k] = v`: replace in place when the key is present, append otherwise. -/
def alistInsert {κ α : Type} [DecidableEq κ] (m : List (κ × α)) (k : κ) (v : α) :
    List (κ × α) :=
  match m with
  | [] => [(k, v)]
  | (k', v') :: rest =>
    if k' = k then (k, v) :: rest else (k', v') :: alistInsert rest k v

/-- `s.add(x)` on a Python set modelled as a duplicate-free list. -/
def setAdd (s : List String) (x : String) : List String :=
  if x ∈ s then s else s ++ [x]

/-- Python string comparison, restricted to the byte-for-byte case used
here: lexicographic by code point. -/
def pyCharListLe : List Char → List Char → Bool
  | [], _ => true
  | _ :: _, [] => false
  | a :: as, b :: bs =>
    if a.toNat < b.toNat then true
    else if b.toNat < a.toNat then false
    else pyCharListLe as bs

/-- `a <= b` for Python strings. -/
def pyStrLe (a b : String) : Bool :=
  pyCharListLe a.toList b.toList

/-- The Python string order as a relation, for sortedness statements. -/
abbrev PyStrOrd (a b : String) : Prop :=
  pyStrLe a b = true

/-- Python's `sorted` on a list of strings (ascending; since strings that
compare equal are identical, every correct sort returns the same list). -/
def pySorted (l : List String) : List String :=
  l.insertionSort PyStrOrd

/-- ASCII `str.lower` on one character (the package and platform names
this program manipulates are ASCII). -/
def pyLowerChar (c : Char) : Char :=
  if 'A' ≤ c ∧ c ≤ 'Z' then Char.ofNat (c.toNat + 32) else c

/-- `s.lower()`. -/
def pyLower (s : String) : String :=
  String.mk (s.toList.map pyLowerChar)

/-- `s.replace("-", "_")`. -/
def pyReplaceDash (s : String) : String :=
  String.mk (s.toList.map fun c => if c = '-' then '_' else c)

/-! ## The build-graph compiler (`src/bin/generate_pip_repositories.py`)

The generator consumes the lock file as parsed JSON: every Requirement
field is present in the canonical dump, `url`/`file`/`sha256` of a
source are optional (`serialize_when_none=False`). -/

/-- One requirement cell of the lock file as read by the generator. -/
structure RequirementDetails where
  version : String
  is_direct : Bool
  source : String
  dependencies : List String
  extras : List String
deriving DecidableEq, Repr

/-- One environment entry of the lock file as read by the generator. -/
structure EnvironmentDetails where
  python_version : Nat
  sys_platform : String
  requirements : List (String × RequirementDetails)
deriving DecidableEq, Repr

/-- One source entry of the lock file as read by the generator. -/
structure SourceDetails where
  url : Option String
  file : Option String
  sha256 : Option String
deriving DecidableEq, Repr

/-- The lock-file document as read by the generator (`json.load`
preserves the document's key order). -/
structure LockFileJson where
  environments : List (String × EnvironmentDetails)
  sources : List (String × SourceDetails)
  local_wheels_package : String
deriving DecidableEq, Repr

/-- platform → details level of the requirement tree. -/
abbrev PlatformSubtree := List (String × RequirementDetails)

/-- python version → platform → details level of the requirement tree. -/
abbrev PythonSubtree := List (Nat × PlatformSubtree)

/-- The full requirement tree: normalized name → version → platform →
details. -/
abbrev RequirementTree := List (String × PythonSubtree)

/-- `_normalize_distribution_name`: `name.lower().replace("-", "_")`. -/
def normalizeDistributionName (name : String) : String :=
  pyReplaceDash (pyLower name)

/-- `_convert_sys_platform_to_bazel`: "darwin" maps to "osx", anything
containing "linux" (Python substring test) maps to "linux", and every
other tag passes through unchanged. -/
def convertSysPlatformToBazel (sys_platform : String) : String :=
  if sys_platform = "darwin" then "osx"
  else if "linux".toList <:+: sys_platform.toList then "linux"
  else sys_platform

/-- `get_source_repo_name`. -/
def getSourceRepoName (source_name : String) : String :=
  "pip__" ++ source_name

/-- `_make_python_specific_alias`. -/
def makePythonSpecificAlias (python_version : Nat) : String :=
  "py" ++ toString python_version

/-- `_make_environment_specific_alias`. -/
def makeEnvironmentSpecificAlias (python_version : Nat) (platform : String) :
    String :=
  "py" ++ toString python_version ++ "_" ++ platform

/-- `_make_python_version_label`. -/
def makePythonVersionLabel (version : Nat) : String :=
  "@bazel_tools//tools/python:PY" ++ toString version

/-- `_make_platform_label`. -/
def makePlatformLabel (rules_pip_repo platform : String) : String :=
  "@" ++ rules_pip_repo ++ "//platforms:" ++ platform

/-- `_make_source_repo_label`. -/
def makeSourceRepoLabel (source_name : String) : String :=
  "@" ++ getSourceRepoName source_name

/-- `_make_source_lib_label`. -/
def makeSourceLibLabel (source_name : String) : String :=
  makeSourceRepoLabel source_name ++ "//:lib"

/-- `_make_package_label`. -/
def makePackageLabel (name : String) : String :=
  "//" ++ name

/-- `SelectAlias`: name, `actual` select dict in insertion order, and
visibility, as interpolated into the emitted `alias(...)` text. -/
structure SelectAlias where
  name : String
  actual : List (String × String)
  visibility : String
deriving DecidableEq, Repr

/-- One emitted build rule of a package's BUILD file. -/
inductive BuildRule
  | pyLibrary (name : String) (deps : List String)
  | aliasRule (a : SelectAlias)
deriving DecidableEq, Repr

/-- One emitted rule of the generated .bzl file (`remote_wheel` /
`local_wheel`, already guarded by `native.existing_rule`). -/
inductive WheelRule
  | remoteWheel (name url sha256 : String)
  | localWheel (name wheel : String)
deriving DecidableEq, Repr

/-- `BzlFileGenerator._generate_all_pip_repo_rules`: one wheel rule per
source, in the iteration order of the `sources` dict. (A local source
whose `file` key is absent raises `KeyError` in Python; that degenerate
record does not occur in lock files and is modelled by `""`.) -/
def generateAllPipRepoRules (lock : LockFileJson) : List WheelRule :=
  lock.sources.map fun p =>
    match p.2.url with
    | some url => .remoteWheel (getSourceRepoName p.1) url (p.2.sha256.getD "")
    | none =>
      .localWheel (getSourceRepoName p.1)
        (lock.local_wheels_package ++ ":" ++ p.2.file.getD "")

/-- `AliasPackageGenerator._build_requirement_tree`: nested
`setdefault` insertion of every environment's requirement, keyed by
normalized name, python version, and canonicalized platform. -/
def buildRequirementTree (environments : List (String × EnvironmentDetails)) :
    RequirementTree :=
  environments.foldl
    (fun tree env =>
      env.2.requirements.foldl
        (fun tree req =>
          alistInsert tree (normalizeDistributionName req.1)
            (alistInsert
              ((alistFind tree (normalizeDistributionName req.1)).getD [])
              env.2.python_version
              (alistInsert
                ((alistFind
                    ((alistFind tree (normalizeDistributionName req.1)).getD
                      [])
                    env.2.python_version).getD [])
                (convertSysPlatformToBazel env.2.sys_platform) req.2)))
        tree)
    []

/-- `_generate_dependency_labels`: the pinned source library first, then
one package label per normalized dependency. -/
def generateDependencyLabels (rd : RequirementDetails) : List String :=
  makeSourceLibLabel rd.source ::
    rd.dependencies.map fun dep => makePackageLabel (normalizeDistributionName dep)

/-- `_generate_py_library`. -/
def generatePyLibrary (rd : RequirementDetails) (python_version : Nat)
    (platform : String) : BuildRule :=
  .pyLibrary (makeEnvironmentSpecificAlias python_version platform)
    (generateDependencyLabels rd)

/-- `_generate_python_version_alias`: a select keyed by platform label
(the tree key converted a second time), one arm per platform of the
subtree. -/
def generatePythonVersionAlias (rules_pip_repo : String) (python_version : Nat)
    (platform_subtree : PlatformSubtree) : SelectAlias :=
  { name := makePythonSpecificAlias python_version
    actual := platform_subtree.foldl
      (fun acc p =>
        alistInsert acc
          (makePlatformLabel rules_pip_repo (convertSysPlatformToBazel p.1))
          (makeEnvironmentSpecificAlias python_version p.1))
      []
    visibility := "//visibility:private" }

/-- The top-level package alias built by
`_generate_rules_for_requirement`: one arm per python version, and
public visibility exactly when some (version, platform) cell has
`is_direct`. -/
def generateTopAlias (requirement_name : String) (python_subtree : PythonSubtree) :
    SelectAlias :=
  { name := requirement_name
    actual := python_subtree.foldl
      (fun acc pvps =>
        alistInsert acc (makePythonVersionLabel pvps.1)
          (makePythonSpecificAlias pvps.1))
      []
    visibility :=
      if python_subtree.any (fun pvps => pvps.2.any (fun p => p.2.is_direct))
      then "//visibility:public" else "//:__subpackages__" }

/-- `_generate_rules_for_requirement`: per python version all
environment-specific `py_library` rules then the version alias, and the
top-level alias last. -/
def generateRulesForRequirement (rules_pip_repo requirement_name : String)
    (python_subtree : PythonSubtree) : List BuildRule :=
  (python_subtree.map fun pvps =>
      (pvps.2.map fun p => generatePyLibrary p.2 pvps.1 p.1) ++
        [BuildRule.aliasRule
          (generatePythonVersionAlias rules_pip_repo pvps.1 pvps.2)]).flatten ++
    [BuildRule.aliasRule (generateTopAlias requirement_name python_subtree)]

/-- The `repos.bzl` variables yielded for one python version by
`_generate_repo_variables` (lines 262-277), together with the
`seen_for_python_version` set: one variable per platform, plus a
whole-version variable when all platforms of the version share one
source repo label. -/
def repoVariablesForVersion (python_version : Nat)
    (platform_subtree : PlatformSubtree) :
    List (String × String) × List String :=
  let seen := platform_subtree.foldl
    (fun s p => setAdd s (makeSourceRepoLabel p.2.source)) []
  let vars := platform_subtree.map fun p =>
    (makeEnvironmentSpecificAlias python_version p.1,
      makeSourceRepoLabel p.2.source)
  (if seen.length = 1
    then vars ++ [(makePythonSpecificAlias python_version, seen.headD "")]
    else vars,
   seen)

/-- The loop of `_generate_repo_variables`, threading `all_seen`. -/
def repoVariablesLoop : PythonSubtree → List String →
    List (String × String) × List String
  | [], all_seen => ([], all_seen)
  | pvps :: rest, all_seen =>
    let block := repoVariablesForVersion pvps.1 pvps.2
    let next := repoVariablesLoop rest (block.2.foldl setAdd all_seen)
    (block.1 ++ next.1, next.2)

/-- `_generate_repo_variables`: per-version blocks, then an `all`
variable when every environment of the package shares one source repo
label. -/
def generateRepoVariables (python_subtree : PythonSubtree) :
    List (String × String) :=
  let r := repoVariablesLoop python_subtree []
  if r.2.length = 1 then r.1 ++ [("all", r.2.headD "")] else r.1

/-! ## The lock model and merge engine (`src/piprules/lockfile.py`)

`Requirement`, `Environment`, `Source` and `LockFile` are schematics
models; the merge engine manipulates the constructed model objects, so
they are embedded as plain records here. `_SortedListType.convert`
applies on construction of a `Requirement`. -/

/-- `_SortedListType.convert`: the converted list, sorted by Python's
`sorted` (list comparison on strings). -/
def sortedListTypeConvert (value : List String) : List String :=
  pySorted value

/-- The `Requirement` model: one resolved package within one
environment. -/
structure Requirement where
  version : String
  is_direct : Bool
  source : String
  dependencies : List String
  extras : List String
deriving DecidableEq, Repr

/-- `Requirement(dict(...))` as built by the merge engine: collection
fields pass through `_SortedListType.convert`. -/
def mkRequirement (version : String) (is_direct : Bool) (source : String)
    (dependencies extras : List String) : Requirement :=
  ⟨version, is_direct, source,
    sortedListTypeConvert dependencies, sortedListTypeConvert extras⟩

/-- The `Environment` model. -/
structure Environment where
  sys_platform : String
  python_version : Nat
  requirements : List (String × Requirement)
deriving DecidableEq, Repr

/-- `Environment.name`: `"{sys_platform}_py{python_version}"`. -/
def Environment.envName (e : Environment) : String :=
  e.sys_platform ++ "_py" ++ toString e.python_version

/-- The `Source` model; equality is structural on the
(url, file, sha256) triple, exactly as `Source.__eq__`. -/
structure Source where
  url : Option String
  file : Option String
  sha256 : Option String
deriving DecidableEq, Repr

/-- The `LockFile` model. -/
structure LockFile where
  environments : List (String × Environment)
  sources : List (String × Source)
  local_wheels_package : Option String
deriving DecidableEq, Repr

/-- A resolved package's provenance as consumed by the merge engine.
The derived attributes (`is_local` from the url scheme, `name` from the
normalized path stem — `util.get_path_stem` lives outside the core —,
`file_name` from the path basename) are pure functions of the url
computed in `resolve.ResolvedRequirementSource`; the embedding carries
their values. -/
structure ResolvedSource where
  url : String
  sha256 : Option String
  is_local : Bool
  name : String
  file_name : String
deriving DecidableEq, Repr

/-- A resolved package record as consumed by
`update_requirements_for_current_environment` (name, version,
provenance, direct flag, dependency names, extras). -/
structure ResolvedRequirement where
  name : String
  version : String
  source : ResolvedSource
  is_direct : Bool
  dependencies : List String
  extras : List String
deriving DecidableEq, Repr

/-- The `Source` record built from a resolved source: local sources
carry only `file`, remote ones `url` and `sha256`
(lockfile.py lines 139-147). -/
def newSourceOf (rs : ResolvedSource) : Source :=
  if rs.is_local then ⟨none, some rs.file_name, none⟩
  else ⟨some rs.url, none, rs.sha256⟩

/-- The loop body of `update_requirements_for_current_environment`
(lines 135-158): derive the source name, warn when an existing source
under that name differs structurally (`_warn_if_source_is_changing`),
overwrite the source, and record the new requirement. Returns the final
sources dict, the new requirements dict, and the emitted warnings (each
warning is the source name of line 170's log message). -/
def updateLoop : List ResolvedRequirement → List (String × Source) →
    List (String × Requirement) → List String →
    List (String × Source) × List (String × Requirement) × List String
  | [], sources, newReqs, warnings => (sources, newReqs, warnings)
  | rr :: rest, sources, newReqs, warnings =>
    let source_name := rr.source.name
    let new_source := newSourceOf rr.source
    let warnings :=
      match alistFind sources source_name with
      | none => warnings
      | some existing =>
        if new_source ≠ existing then warnings ++ [source_name] else warnings
    updateLoop rest
      (alistInsert sources source_name new_source)
      (alistInsert newReqs rr.name
        (mkRequirement rr.version rr.is_direct source_name
          rr.dependencies rr.extras))
      warnings

/-- `_get_or_create_current_environment` followed by the wholesale
replacement of its `requirements` (line 160): the current environment's
entry is created when absent, and its requirement map is replaced;
every other environment is untouched. -/
def setCurrentEnvRequirements (envs : List (String × Environment))
    (current : Environment) (newReqs : List (String × Requirement)) :
    List (String × Environment) :=
  match alistFind envs current.envName with
  | some e => alistInsert envs current.envName { e with requirements := newReqs }
  | none => envs ++ [(current.envName, { current with requirements := newReqs })]

/-- `_is_source_used`. -/
def isSourceUsed (envs : List (String × Environment)) (source_key : String) :
    Bool :=
  envs.any fun e => e.2.requirements.any fun r => r.2.source = source_key

/-- `_purge_unused_sources`. -/
def purgeUnusedSources (lock : LockFile) : LockFile :=
  { lock with
    sources := lock.sources.filter fun p => isSourceUsed lock.environments p.1 }

/-- `update_requirements_for_current_environment`, parameterized by the
ambient current environment (`_CURRENT_ENVIRONMENT`, derived from
`sys.platform` and the interpreter version). Returns the updated lock
file and the emitted drift warnings. -/
def updateRequirementsForCurrentEnvironment (lock : LockFile)
    (current : Environment) (resolved : List ResolvedRequirement) :
    LockFile × List String :=
  let r := updateLoop resolved lock.sources [] []
  let envs := setCurrentEnvRequirements lock.environments current r.2.1
  (purgeUnusedSources { lock with environments := envs, sources := r.1 }, r.2.2)

/-! ## Loading (`LockFile.load`, `LockFile.from_json`, module `load`)

`LockFile.from_json` is `cls(json.loads(json_string))`: schematics
model construction over the parsed document. Construction *converts*
field values — a value of a structurally wrong type raises a parse
error (`DataError`), as does an unknown field (`strict`) — but does
not enforce `required=True`: required-field validation belongs to
schematics' deferred `validate()`, which this code never calls, so a
missing required field simply leaves the field unset. `IntType`
choices and `URLType` well-formedness are likewise deferred
validators. Numeric JSON values are modelled as integers (lock files
contain no floats). -/

/-- A parsed JSON document (`json.loads` output). -/
inductive Json
  | null
  | bool (b : Bool)
  | num (n : Int)
  | str (s : String)
  | arr (elems : List Json)
  | obj (fields : List (String × Json))

/-- `StringType` conversion: strings pass, `None` leaves the field
unset, ints are cast to their decimal string, anything else is a parse
error. -/
def convertStringField : Json → Except String (Option String)
  | .null => .ok none
  | .str s => .ok (some s)
  | .num n => .ok (some (toString n))
  | _ => .error "string expected"

/-- `BooleanType` conversion: booleans and the literal true/false
strings pass, `None` leaves the field unset, anything else is a parse
error. -/
def convertBoolField : Json → Except String (Option Bool)
  | .null => .ok none
  | .bool b => .ok (some b)
  | .str s =>
    if s = "True" ∨ s = "true" ∨ s = "1" then .ok (some true)
    else if s = "False" ∨ s = "false" ∨ s = "0" then .ok (some false)
    else .error "bool expected"
  | _ => .error "bool expected"

/-- `IntType` conversion: ints pass, `None` leaves the field unset,
other shapes are parse errors. (Decimal strings, which the library
would coerce, never occur in dumped lock files and are not modelled;
the `choices=[2, 3]` restriction is a deferred validator and is not
checked at construction.) -/
def convertIntField : Json → Except String (Option Int)
  | .null => .ok none
  | .num n => .ok (some n)
  | _ => .error "int expected"

/-- `ListType(StringType)` element-wise conversion. -/
def convertStringList : Json → Except String (List String)
  | .arr elems =>
    elems.mapM fun j =>
      match j with
      | .str s => Except.ok s
      | .num n => Except.ok (toString n)
      | _ => Except.error "string expected"
  | _ => .error "list expected"

/-- A constructed (converted, unvalidated) `Requirement`: every field
may be unset, since `required=True` is not enforced at construction. -/
structure RequirementRaw where
  version : Option String
  is_direct : Option Bool
  source : Option String
  dependencies : List String
  extras : List String
deriving DecidableEq, Repr

/-- A constructed `Environment`. -/
structure EnvironmentRaw where
  sys_platform : Option String
  python_version : Option Int
  requirements : List (String × RequirementRaw)
deriving DecidableEq, Repr

/-- A constructed `Source`. -/
structure SourceRaw where
  url : Option String
  file : Option String
  sha256 : Option String
deriving DecidableEq, Repr

/-- A constructed `LockFile`. -/
structure LockFileRaw where
  environments : List (String × EnvironmentRaw)
  sources : List (String × SourceRaw)
  local_wheels_package : Option String
deriving DecidableEq, Repr

/-- `LockFile()`: all defaults. -/
def emptyLockFileRaw : LockFileRaw :=
  ⟨[], [], none⟩

/-- `Requirement(raw)` model construction: reject unknown fields,
convert each declared field, defaulting the collection fields to `[]`
and sorting them (`_SortedListType`). -/
def requirementFromJson (j : Json) : Except String RequirementRaw :=
  match j with
  | .obj fields =>
    if fields.any
        (fun f => f.1 ∉ ["version", "is_direct", "source",
          "dependencies", "extras"]) then
      .error "rogue field in Requirement"
    else do
      let version ← match alistFind fields "version" with
        | none => Except.ok none
        | some v => convertStringField v
      let is_direct ← match alistFind fields "is_direct" with
        | none => Except.ok none
        | some v => convertBoolField v
      let source ← match alistFind fields "source" with
        | none => Except.ok none
        | some v => convertStringField v
      let dependencies ← match alistFind fields "dependencies" with
        | none => Except.ok []
        | some v => sortedListTypeConvert <$> convertStringList v
      let extras ← match alistFind fields "extras" with
        | none => Except.ok []
        | some v => sortedListTypeConvert <$> convertStringList v
      .ok ⟨version, is_direct, source, dependencies, extras⟩
  | _ => .error "Requirement model expected a mapping"

/-- `DictType(ModelType(Requirement))` conversion. -/
def requirementDictFromJson (j : Json) :
    Except String (List (String × RequirementRaw)) :=
  match j with
  | .obj fields =>
    fields.mapM fun f => do
      let r ← requirementFromJson f.2
      pure (f.1, r)
  | _ => .error "dict expected"

/-- `Environment(raw)` model construction. -/
def environmentFromJson (j : Json) : Except String EnvironmentRaw :=
  match j with
  | .obj fields =>
    if fields.any
        (fun f => f.1 ∉ ["sys_platform", "python_version", "requirements"]) then
      .error "rogue field in Environment"
    else do
      let sys_platform ← match alistFind fields "sys_platform" with
        | none => Except.ok none
        | some v => convertStringField v
      let python_version ← match alistFind fields "python_version" with
        | none => Except.ok none
        | some v => convertIntField v
      let requirements ← match alistFind fields "requirements" with
        | none => Except.ok []
        | some v => requirementDictFromJson v
      .ok ⟨sys_platform, python_version, requirements⟩
  | _ => .error "Environment model expected a mapping"

/-- `Source(raw)` model construction. -/
def sourceFromJson (j : Json) : Except String SourceRaw :=
  match j with
  | .obj fields =>
    if fields.any (fun f => f.1 ∉ ["url", "file", "sha256"]) then
      .error "rogue field in Source"
    else do
      let url ← match alistFind fields "url" with
        | none => Except.ok none
        | some v => convertStringField v
      let file ← match alistFind fields "file" with
        | none => Except.ok none
        | some v => convertStringField v
      let sha256 ← match alistFind fields "sha256" with
        | none => Except.ok none
        | some v => convertStringField v
      .ok ⟨url, file, sha256⟩
  | _ => .error "Source model expected a mapping"

/-- `DictType(ModelType(Environment))` conversion. -/
def environmentDictFromJson (j : Json) :
    Except String (List (String × EnvironmentRaw)) :=
  match j with
  | .obj fields =>
    fields.mapM fun f => do
      let e ← environmentFromJson f.2
      pure (f.1, e)
  | _ => .error "dict expected"

/-- `DictType(ModelType(Source))` conversion. -/
def sourceDictFromJson (j : Json) :
    Except String (List (String × SourceRaw)) :=
  match j with
  | .obj fields =>
    fields.mapM fun f => do
      let s ← sourceFromJson f.2
      pure (f.1, s)
  | _ => .error "dict expected"

/-- `LockFile.from_json` after `json.loads`: `LockFile` model
construction over the parsed document. -/
def lockFileFromJson (j : Json) : Except String LockFileRaw :=
  match j with
  | .obj fields =>
    if fields.any
        (fun f => f.1 ∉ ["environments", "sources", "local_wheels_package"]) then
      .error "rogue field in LockFile"
    else do
      let environments ← match alistFind fields "environments" with
        | none => Except.ok []
        | some v => environmentDictFromJson v
      let sources ← match alistFind fields "sources" with
        | none => Except.ok []
        | some v => sourceDictFromJson v
      let local_wheels_package ← match alistFind fields "local_wheels_package" with
        | none => Except.ok none
        | some v => convertStringField v
      .ok ⟨environments, sources, local_wheels_package⟩
  | _ => .error "LockFile model expected a mapping"

/-- The outcome of `open(path).read()` plus `json.loads`: either a
parsed document, or an `IOError` carrying its errno. -/
inductive FileRead
  | content (doc : Json)
  | ioError (errno : Nat)

/-- `errno.ENOENT`. -/
def ENOENT : Nat := 2

/-- Failure of the module-level `load`: an uncaught `IOError`, or a
parse error from model construction. -/
inductive LoadErr
  | ioError (errno : Nat)
  | parseError (msg : String)
deriving DecidableEq, Repr

/-- The module-level `load(path, create_if_missing=True)`
(lockfile.py lines 196-202): `LockFile.load` reads the file and builds
the model; only an `IOError` with errno `ENOENT` is converted to an
empty `LockFile` (when `create_if_missing`), every other failure
propagates. The filesystem is an explicit parameter. -/
def lockFileModuleLoad (fs : String → FileRead) (path : String)
    (create_if_missing : Bool) : Except LoadErr LockFileRaw :=
  match fs path with
  | .ioError e =>
    if create_if_missing ∧ e = ENOENT then .ok emptyLockFileRaw
    else .error (.ioError e)
  | .content doc => (lockFileFromJson doc).mapError .parseError

/-- The target name of an emitted wheel rule. -/
def wheelRuleName : WheelRule → String
  | .remoteWheel n _ _ => n
  | .localWheel n _ => n

/-- The detail stored at `tree[name][python_version][platform]`
(`none` when any level is absent). -/
def treeCell (tree : RequirementTree) (name : String) (python_version : Nat)
    (platform : String) : Option RequirementDetails :=
  alistFind
    ((alistFind ((alistFind tree name).getD []) python_version).getD [])
    platform

/-- A stored lock document whose requirement record for "a" lacks the
required `version` field (but is otherwise well-typed). -/
def missingVersionDoc : Json :=
  .obj [("environments", .obj [("linux_py3", .obj [
      ("sys_platform", .str "linux"), ("python_version", .num 3),
      ("requirements", .obj [("a", .obj [("is_direct", .bool true),
        ("source", .str "s")])])])]),
    ("sources", .obj [("s", .obj [("url", .str "http://x/a.whl")])]),
    ("local_wheels_package", .str "wheels")]

/-- LockFile invariant 1: every `source` referenced by any Requirement
in any Environment exists in `sources`. -/
def sourceRefsValid (lock : LockFile) : Prop :=
  ∀ e ∈ lock.environments, ∀ r ∈ e.2.requirements,
    (alistFind lock.sources r.2.source).isSome

/-- LockFile invariant 2: `sources` contains no entry unreferenced by
any Requirement. -/
def allSourcesUsed (lock : LockFile) : Prop :=
  ∀ s ∈ lock.sources, ∃ e ∈ lock.environments, ∃ r ∈ e.2.requirements,
    r.2.source = s.1

/-! ## Helper lemmas -/

theorem pyCharListLe_total : ∀ as bs : List Char,
    pyCharListLe as bs = true ∨ pyCharListLe bs as = true
  | [], _ => Or.inl rfl
  | _ :: _, [] => Or.inr rfl
  | a :: as, b :: bs => by
    simp only [pyCharListLe]
    rcases Nat.lt_trichotomy a.toNat b.toNat with h | h | h
    · left; simp [h]
    · have h1 : ¬ a.toNat < b.toNat := by omega
      have h2 : ¬ b.toNat < a.toNat := by omega
      rcases pyCharListLe_total as bs with hh | hh
      · left; simp [h1, h2, hh]
      · right; simp [h1, h2, hh]
    · have h1 : ¬ a.toNat < b.toNat := by omega
      right; simp [h, h1]

theorem pyCharListLe_trans : ∀ as bs cs : List Char,
    pyCharListLe as bs = true → pyCharListLe bs cs = true →
      pyCharListLe as cs = true
  | [], _, _, _, _ => rfl
  | _ :: _, [], _, h1, _ => by simp [pyCharListLe] at h1
  | _ :: _, _ :: _, [], _, h2 => by simp [pyCharListLe] at h2
  | a :: as, b :: bs, c :: cs, h1, h2 => by
    simp only [pyCharListLe] at h1 h2 ⊢
    by_cases hab : a.toNat < b.toNat
    · by_cases hbc : b.toNat < c.toNat
      · have hac : a.toNat < c.toNat := by omega
        rw [if_pos hac]
      · by_cases hcb : c.toNat < b.toNat
        · rw [if_neg hbc, if_pos hcb] at h2
          exact absurd h2 (by simp)
        · have hac : a.toNat < c.toNat := by omega
          rw [if_pos hac]
    · by_cases hba : b.toNat < a.toNat
      · rw [if_neg hab, if_pos hba] at h1
        exact absurd h1 (by simp)
      · by_cases hbc : b.toNat < c.toNat
        · have hac : a.toNat < c.toNat := by omega
          rw [if_pos hac]
        · by_cases hcb : c.toNat < b.toNat
          · rw [if_neg hbc, if_pos hcb] at h2
            exact absurd h2 (by simp)
          · rw [if_neg hab, if_neg hba] at h1
            rw [if_neg hbc, if_neg hcb] at h2
            have hac : ¬ a.toNat < c.toNat := by omega
            have hca : ¬ c.toNat < a.toNat := by omega
            rw [if_neg hac, if_neg hca]
            exact pyCharListLe_trans as bs cs h1 h2

theorem pyCharListLe_append_left : ∀ x a b : List Char,
    pyCharListLe (x ++ a) (x ++ b) = pyCharListLe a b
  | [], _, _ => rfl
  | c :: x, a, b => by
    simp [pyCharListLe, pyCharListLe_append_left x a b]

theorem pyStrLe_append_left (x a b : String) :
    pyStrLe (x ++ a) (x ++ b) = pyStrLe a b := by
  simpa [pyStrLe, String.toList] using
    pyCharListLe_append_left x.data a.data b.data

theorem string_append_left_cancel {s a b : String} (h : s ++ a = s ++ b) :
    a = b := by
  have hd : s.data ++ a.data = s.data ++ b.data := by
    have := congrArg String.data h
    simpa using this
  have hab := List.append_cancel_left hd
  cases a; cases b
  exact congrArg String.mk hab

theorem alistFind_insert_self {κ α : Type} [DecidableEq κ]
    (m : List (κ × α)) (k : κ) (v : α) :
    alistFind (alistInsert m k v) k = some v := by
  induction m with
  | nil => simp [alistFind, alistInsert]
  | cons hd tl ih =>
    by_cases h : hd.1 = k
    · simp [alistInsert, alistFind, h]
    · simp [alistInsert, alistFind, h, ih]

theorem alistFind_insert_ne {κ α : Type} [DecidableEq κ]
    (m : List (κ × α)) {k' k : κ} (v : α) (h : k' ≠ k) :
    alistFind (alistInsert m k' v) k = alistFind m k := by
  induction m with
  | nil => simp [alistFind, alistInsert, h]
  | cons hd tl ih =>
    by_cases hh : hd.1 = k'
    · simp [alistInsert, alistFind, hh, h]
    · simp only [alistInsert, if_neg hh]
      by_cases hk : hd.1 = k
      · simp [alistFind, hk]
      · simp [alistFind, hk, ih]

theorem alistFind_insert_isSome {κ α : Type} [DecidableEq κ]
    (m : List (κ × α)) (k' k : κ) (v : α)
    (h : (alistFind m k).isSome) :
    (alistFind (alistInsert m k' v) k).isSome := by
  by_cases hk : k' = k
  · subst hk; simp [alistFind_insert_self]
  · rwa [alistFind_insert_ne m v hk]

theorem alistFind_mem {κ α : Type} [DecidableEq κ]
    {m : List (κ × α)} {k : κ} {v : α} (h : alistFind m k = some v) :
    (k, v) ∈ m := by
  induction m with
  | nil => simp [alistFind] at h
  | cons hd tl ih =>
    by_cases hh : hd.1 = k
    · simp only [alistFind, if_pos hh] at h
      cases h
      obtain ⟨k₀, v₀⟩ := hd
      simp only at hh
      cases hh
      exact List.mem_cons_self _ _
    · simp only [alistFind, if_neg hh] at h
      exact List.mem_cons_of_mem _ (ih h)

theorem mem_alistInsert_self {κ α : Type} [DecidableEq κ]
    (m : List (κ × α)) (k : κ) (v : α) :
    (k, v) ∈ alistInsert m k v := by
  induction m with
  | nil => simp [alistInsert]
  | cons hd tl ih =>
    by_cases hh : hd.1 = k
    · simp [alistInsert, hh]
    · simp only [alistInsert, if_neg hh]
      exact List.mem_cons_of_mem _ ih

theorem mem_alistInsert {κ α : Type} [DecidableEq κ]
    {m : List (κ × α)} {k : κ} {v : α} {e : κ × α}
    (h : e ∈ alistInsert m k v) : e = (k, v) ∨ e ∈ m := by
  induction m with
  | nil => simpa [alistInsert] using h
  | cons hd tl ih =>
    by_cases hh : hd.1 = k
    · simp only [alistInsert, if_pos hh] at h
      rcases List.mem_cons.mp h with h | h
      · exact Or.inl h
      · exact Or.inr (List.mem_cons_of_mem _ h)
    · simp only [alistInsert, if_neg hh] at h
      rcases List.mem_cons.mp h with h | h
      · subst h
        exact Or.inr (List.mem_cons_self _ _)
      · rcases ih h with h | h
        · exact Or.inl h
        · exact Or.inr (List.mem_cons_of_mem _ h)

theorem alistFind_filter {κ α : Type} [DecidableEq κ]
    {m : List (κ × α)} {k : κ} {v : α} (p : κ × α → Bool)
    (h : alistFind m k = some v) (hp : p (k, v) = true) :
    alistFind (m.filter p) k = some v := by
  induction m with
  | nil => simp [alistFind] at h
  | cons hd tl ih =>
    by_cases hh : hd.1 = k
    · simp only [alistFind, if_pos hh] at h
      cases h
      obtain ⟨k₀, v₀⟩ := hd
      simp only at hh
      cases hh
      rw [List.filter_cons_of_pos hp]
      simp [alistFind]
    · simp only [alistFind, if_neg hh] at h
      by_cases hph : p hd = true
      · rw [List.filter_cons_of_pos hph, alistFind, if_neg hh]
        exact ih h
      · rw [List.filter_cons_of_neg (by simpa using hph)]
        exact ih h

theorem alistInsert_fresh {κ α : Type} [DecidableEq κ]
    {m : List (κ × α)} {k : κ} (v : α) (h : ∀ e ∈ m, e.1 ≠ k) :
    alistInsert m k v = m ++ [(k, v)] := by
  induction m with
  | nil => simp [alistInsert]
  | cons hd tl ih =>
    have hne : hd.1 ≠ k := h hd (List.mem_cons_self _ _)
    simp only [alistInsert, if_neg hne, List.cons_append, List.cons.injEq,
      true_and]
    exact ih fun e he => h e (List.mem_cons_of_mem _ he)

theorem alistFind_eq_of_mem {κ α : Type} [DecidableEq κ]
    {m : List (κ × α)} {k : κ} {v : α}
    (hmem : (k, v) ∈ m) (hnd : (m.map Prod.fst).Nodup) :
    alistFind m k = some v := by
  induction m with
  | nil => simp at hmem
  | cons hd tl ih =>
    simp only [List.map_cons, List.nodup_cons] at hnd
    rcases List.mem_cons.mp hmem with h | h
    · subst h; simp [alistFind]
    · have hne : hd.1 ≠ k := by
        intro hk
        refine hnd.1 ?_
        rw [hk]
        exact List.mem_map_of_mem Prod.fst h
      simp [alistFind, hne, ih h hnd.2]

theorem mem_setAdd (s : List String) (x y : String) :
    y ∈ setAdd s x ↔ y ∈ s ∨ y = x := by
  by_cases h : x ∈ s
  · simp only [setAdd, if_pos h]
    constructor
    · exact Or.inl
    · rintro (hy | rfl)
      · exact hy
      · exact h
  · simp [setAdd, if_neg h]

theorem setAdd_all_eq (x : String) : ∀ (l : List String) (s : List String),
    (∀ y ∈ s, y = x) → (∀ y ∈ l, y = x) → ∀ y ∈ l.foldl setAdd s, y = x
  | [], _, hs, _ => hs
  | b :: l, s, hs, hl => by
    intro y hy
    refine setAdd_all_eq x l (setAdd s b) ?_ (fun z hz => hl z (List.mem_cons_of_mem _ hz)) y hy
    intro z hz
    rcases (mem_setAdd s b z).mp hz with h | h
    · exact hs z h
    · exact h ▸ hl b (List.mem_cons_self _ _)

/-! ## Claim theorems -/

/-- C10: `_convert_sys_platform_to_bazel` is idempotent — applying it
twice gives the same result as applying it once — so the second
conversion performed on already-canonicalized tree keys when generating
a version alias never changes which platform label an arm is keyed by. -/
theorem c10_convert_idempotent :
    (∀ p, convertSysPlatformToBazel (convertSysPlatformToBazel p) =
        convertSysPlatformToBazel p) ∧
      ∀ rules_pip_repo p,
        makePlatformLabel rules_pip_repo
            (convertSysPlatformToBazel (convertSysPlatformToBazel p)) =
          makePlatformLabel rules_pip_repo (convertSysPlatformToBazel p) := by
  have key : ∀ p, convertSysPlatformToBazel (convertSysPlatformToBazel p) =
      convertSysPlatformToBazel p := by
    intro p
    by_cases h1 : p = "darwin"
    · subst h1; decide
    · by_cases h2 : "linux".toList <:+: p.toList
      · have hp : convertSysPlatformToBazel p = "linux" := by
          unfold convertSysPlatformToBazel
          rw [if_neg h1, if_pos h2]
        rw [hp]; decide
      · have hp : convertSysPlatformToBazel p = p := by
          unfold convertSysPlatformToBazel
          rw [if_neg h1, if_neg h2]
        rw [hp, hp]
  exact ⟨key, fun repo p => congrArg (makePlatformLabel repo) (key p)⟩

/-- C4 (counterexample): `_SortedListType.convert` does not
deduplicate — converting `["a", "a"]` keeps the duplicate, refuting the
claim that the stored value contains no element twice. -/
theorem c4_counterexample :
    sortedListTypeConvert ["a", "a"] = ["a", "a"] ∧
      ¬ (sortedListTypeConvert ["a", "a"]).Nodup := by decide

/-- C4 (amended): the value stored by `_SortedListType.convert` is
the input sorted in ascending Python string order; duplicates are
retained (the result is a permutation of the input). -/
theorem c4_sorted_not_dedup (l : List String) :
    List.Sorted PyStrOrd (sortedListTypeConvert l) ∧
      List.Perm (sortedListTypeConvert l) l := by
  constructor
  · haveI : IsTotal String PyStrOrd :=
      ⟨fun a b => pyCharListLe_total a.toList b.toList⟩
    haveI : IsTrans String PyStrOrd :=
      ⟨fun a b c => pyCharListLe_trans a.toList b.toList c.toList⟩
    exact List.sorted_insertionSort PyStrOrd l
  · exact List.perm_insertionSort PyStrOrd l

/-- C3: the top-level alias is emitted, and its visibility is public
iff some (version, platform) cell of the package's subtree has
`is_direct = true`; otherwise it is `//:__subpackages__`. -/
theorem c3_visibility_propagation (rules_pip_repo requirement_name : String)
    (python_subtree : PythonSubtree) :
    (BuildRule.aliasRule (generateTopAlias requirement_name python_subtree) ∈
        generateRulesForRequirement rules_pip_repo requirement_name
          python_subtree) ∧
      ((generateTopAlias requirement_name python_subtree).visibility =
          "//visibility:public" ↔
        ∃ pvps ∈ python_subtree, ∃ p ∈ pvps.2, p.2.is_direct = true) ∧
      ((generateTopAlias requirement_name python_subtree).visibility =
          "//:__subpackages__" ↔
        ¬ ∃ pvps ∈ python_subtree, ∃ p ∈ pvps.2, p.2.is_direct = true) := by
  have hiff :
      (python_subtree.any fun pvps => pvps.2.any fun p => p.2.is_direct) =
          true ↔
        ∃ pvps ∈ python_subtree, ∃ p ∈ pvps.2, p.2.is_direct = true := by
    simp [List.any_eq_true]
  have hvis : (generateTopAlias requirement_name python_subtree).visibility =
      if (python_subtree.any fun pvps => pvps.2.any fun p => p.2.is_direct) =
          true
      then "//visibility:public" else "//:__subpackages__" := by
    simp [generateTopAlias]
  refine ⟨?_, ?_, ?_⟩
  · unfold generateRulesForRequirement
    exact List.mem_append_right _ (List.mem_singleton.mpr rfl)
  · rw [hvis]
    by_cases h :
        (python_subtree.any fun pvps => pvps.2.any fun p => p.2.is_direct) =
          true
    · rw [if_pos h]
      exact iff_of_true rfl (hiff.mp h)
    · rw [if_neg h]
      exact iff_of_false (by decide) fun hx => h (hiff.mpr hx)
  · rw [hvis]
    by_cases h :
        (python_subtree.any fun pvps => pvps.2.any fun p => p.2.is_direct) =
          true
    · rw [if_pos h]
      exact iff_of_false (by decide) (not_not_intro (hiff.mp h))
    · rw [if_neg h]
      exact iff_of_true rfl fun hx => h (hiff.mpr hx)

/-- C9 (counterexample): on a lock file whose `sources` keys appear
in the order b, a, the .bzl generator emits the wheel rules in that
same document order, which is not sorted — refuting the claim that the
compiler iterates over every mapping in sorted order. -/
theorem c9_counterexample :
    ((generateAllPipRepoRules
          ⟨[], [("b", ⟨some "http://x/b.whl", none, some "hb"⟩),
            ("a", ⟨some "http://x/a.whl", none, some "ha"⟩)], "wheels"⟩).map
        wheelRuleName = ["pip__b", "pip__a"]) ∧
      ¬ List.Sorted PyStrOrd ["pip__b", "pip__a"] := by decide

/-- C9 (amended): the .bzl generator emits one wheel rule per source
in exactly the iteration (document) order of the `sources` mapping — a
deterministic function of the input, so re-running on the same input
gives identical output — and the emitted order is sorted whenever the
input's keys are sorted (as the canonical dump guarantees). -/
theorem c9_emission_order_amended (lock : LockFileJson) :
    ((generateAllPipRepoRules lock).map wheelRuleName =
        lock.sources.map fun p => getSourceRepoName p.1) ∧
      (List.Sorted PyStrOrd (lock.sources.map Prod.fst) →
        List.Sorted PyStrOrd
          ((generateAllPipRepoRules lock).map wheelRuleName)) := by
  have horder : (generateAllPipRepoRules lock).map wheelRuleName =
      lock.sources.map fun p => getSourceRepoName p.1 := by
    unfold generateAllPipRepoRules
    rw [List.map_map]
    refine List.map_congr_left fun p _ => ?_
    obtain ⟨k, url, file, sha⟩ := p
    cases url <;> rfl
  refine ⟨horder, fun hsorted => ?_⟩
  rw [horder]
  have : (lock.sources.map fun p => getSourceRepoName p.1) =
      (lock.sources.map Prod.fst).map getSourceRepoName := by
    rw [List.map_map]; rfl
  rw [this]
  refine List.Pairwise.map getSourceRepoName ?_ hsorted
  intro a b hab
  show pyStrLe ("pip__" ++ a) ("pip__" ++ b) = true
  rwa [pyStrLe_append_left]

/-- C9 (witness): the amended theorem applied to a concrete lock
file with sorted source keys. -/
theorem c9_emission_order_amended_witness :
    List.Sorted PyStrOrd
      ((generateAllPipRepoRules
          ⟨[], [("a", ⟨some "http://x/a.whl", none, some "ha"⟩),
            ("b", ⟨some "http://x/b.whl", none, some "hb"⟩)], "wheels"⟩).map
        wheelRuleName) :=
  (c9_emission_order_amended _).2 (by decide)

theorem makePlatformLabel_injective {repo a b : String}
    (h : makePlatformLabel repo a = makePlatformLabel repo b) : a = b := by
  simp only [makePlatformLabel] at h
  exact string_append_left_cancel h

theorem makeSourceRepoLabel_injective {a b : String}
    (h : makeSourceRepoLabel a = makeSourceRepoLabel b) : a = b := by
  simp only [makeSourceRepoLabel, getSourceRepoName] at h
  exact string_append_left_cancel (string_append_left_cancel h)

theorem foldl_alistInsert_eq_append {κ α β : Type} [DecidableEq κ]
    (f : β → κ) (g : β → α) :
    ∀ (l : List β) (acc : List (κ × α)),
      (l.map f).Nodup → (∀ b ∈ l, ∀ e ∈ acc, e.1 ≠ f b) →
      l.foldl (fun acc b => alistInsert acc (f b) (g b)) acc =
        acc ++ l.map fun b => (f b, g b)
  | [], acc, _, _ => by simp
  | b :: l, acc, hnd, hfresh => by
    simp only [List.foldl_cons]
    rw [alistInsert_fresh (g b) fun e he => hfresh b (List.mem_cons_self _ _) e he]
    simp only [List.map_cons, List.nodup_cons] at hnd
    rw [foldl_alistInsert_eq_append f g l (acc ++ [(f b, g b)]) hnd.2 ?_]
    · simp
    · intro c hc e he
      rcases List.mem_append.mp he with he | he
      · exact hfresh c (List.mem_cons_of_mem _ hc) e he
      · simp only [List.mem_singleton] at he
        subst he
        intro hq
        refine hnd.1 ?_
        simp only at hq
        rw [hq]
        exact List.mem_map_of_mem f hc

theorem repoVariablesLoop_fst : ∀ (t : PythonSubtree) (seen : List String),
    (repoVariablesLoop t seen).1 =
      (t.map fun pvps => (repoVariablesForVersion pvps.1 pvps.2).1).flatten
  | [], _ => rfl
  | pvps :: rest, seen => by
    simp only [repoVariablesLoop, List.map_cons, List.flatten_cons]
    rw [repoVariablesLoop_fst rest _]

theorem mem_generateRepoVariables {t : PythonSubtree} {pv : Nat}
    {ps : PlatformSubtree} {x : String × String}
    (hmem : (pv, ps) ∈ t) (hx : x ∈ (repoVariablesForVersion pv ps).1) :
    x ∈ generateRepoVariables t := by
  have hin : x ∈ (repoVariablesLoop t []).1 := by
    rw [repoVariablesLoop_fst]
    refine List.mem_flatten.mpr ⟨(repoVariablesForVersion pv ps).1, ?_, hx⟩
    have := List.mem_map_of_mem
      (fun pvps : Nat × PlatformSubtree =>
        (repoVariablesForVersion pvps.1 pvps.2).1) hmem
    simpa using this
  simp only [generateRepoVariables]
  by_cases h : (repoVariablesLoop t []).2.length = 1
  · rw [if_pos h]
    exact List.mem_append_left _ hin
  · rw [if_neg h]
    exact hin

theorem foldl_setAdd_const (L : String) :
    ∀ ps : PlatformSubtree,
      (∀ p ∈ ps, makeSourceRepoLabel p.2.source = L) →
      ps.foldl (fun s p => setAdd s (makeSourceRepoLabel p.2.source)) [L] = [L]
  | [], _ => rfl
  | p :: ps, hall => by
    simp only [List.foldl_cons, hall p (List.mem_cons_self _ _)]
    have h1 : setAdd [L] L = [L] := by simp [setAdd]
    rw [h1]
    exact foldl_setAdd_const L ps fun q hq => hall q (List.mem_cons_of_mem _ hq)

theorem repoVariablesForVersion_fst_collapsed (pv : Nat) {ps : PlatformSubtree}
    {L : String} (hne : ps ≠ [])
    (hall : ∀ p ∈ ps, makeSourceRepoLabel p.2.source = L) :
    (repoVariablesForVersion pv ps).1 =
      (ps.map fun p => (makeEnvironmentSpecificAlias pv p.1,
        makeSourceRepoLabel p.2.source)) ++
        [(makePythonSpecificAlias pv, L)] := by
  have hseen :
      ps.foldl (fun s p => setAdd s (makeSourceRepoLabel p.2.source)) [] =
        [L] := by
    cases ps with
    | nil => exact absurd rfl hne
    | cons p rest =>
      simp only [List.foldl_cons]
      have h0 : setAdd [] (makeSourceRepoLabel p.2.source) = [L] := by
        simp [setAdd, hall p (List.mem_cons_self _ _)]
      rw [h0]
      exact foldl_setAdd_const L rest
        fun q hq => hall q (List.mem_cons_of_mem _ hq)
  simp only [repoVariablesForVersion, hseen]
  simp

theorem repoVariablesForVersion_fst_two_diff (pv : Nat)
    (p1 p2 : String × RequirementDetails)
    (hll : makeSourceRepoLabel p1.2.source ≠ makeSourceRepoLabel p2.2.source) :
    (repoVariablesForVersion pv [p1, p2]).1 =
      [p1, p2].map fun p => (makeEnvironmentSpecificAlias pv p.1,
        makeSourceRepoLabel p.2.source) := by
  have h0 : setAdd [] (makeSourceRepoLabel p1.2.source) =
      [makeSourceRepoLabel p1.2.source] := by simp [setAdd]
  have h1 : setAdd [makeSourceRepoLabel p1.2.source]
      (makeSourceRepoLabel p2.2.source) =
      [makeSourceRepoLabel p1.2.source, makeSourceRepoLabel p2.2.source] := by
    simp [setAdd, Ne.symm hll]
  simp only [repoVariablesForVersion, List.foldl_cons, List.foldl_nil, h0, h1]
  simp

theorem generatePythonVersionAlias_actual (repo : String) (pv : Nat)
    (ps : PlatformSubtree) (hnd : (ps.map Prod.fst).Nodup)
    (hcanon : ∀ p ∈ ps, convertSysPlatformToBazel p.1 = p.1) :
    (generatePythonVersionAlias repo pv ps).actual =
      ps.map fun p =>
        (makePlatformLabel repo p.1, makeEnvironmentSpecificAlias pv p.1) := by
  have hndf :
      (ps.map fun p : String × RequirementDetails =>
        makePlatformLabel repo (convertSysPlatformToBazel p.1)).Nodup := by
    have heq : (ps.map fun p : String × RequirementDetails =>
        makePlatformLabel repo (convertSysPlatformToBazel p.1)) =
        (ps.map Prod.fst).map
          fun k => makePlatformLabel repo (convertSysPlatformToBazel k) := by
      rw [List.map_map]
      rfl
    rw [heq]
    refine List.Nodup.map_on ?_ hnd
    intro x hx y hy hxy
    have hcx : convertSysPlatformToBazel x = x := by
      obtain ⟨p, hp, rfl⟩ := List.mem_map.mp hx
      exact hcanon p hp
    have hcy : convertSysPlatformToBazel y = y := by
      obtain ⟨p, hp, rfl⟩ := List.mem_map.mp hy
      exact hcanon p hp
    rw [hcx, hcy] at hxy
    exact makePlatformLabel_injective hxy
  have h := foldl_alistInsert_eq_append
    (fun p : String × RequirementDetails =>
      makePlatformLabel repo (convertSysPlatformToBazel p.1))
    (fun p : String × RequirementDetails =>
      makeEnvironmentSpecificAlias pv p.1) ps [] hndf (by simp)
  simp only [List.nil_append] at h
  refine h.trans ?_
  refine List.map_congr_left fun p hp => ?_
  rw [hcanon p hp]

/-- C1 (counterexample): for interpreter version 3 with platforms
"linux" and "osx" both resolving "beta" to the identical source, the
compiler still emits the per-platform conditional (a version alias with
two arms) — the whole-version reference is emitted *in addition to*, not
instead of, the conditional. -/
theorem c1_counterexample :
    (([("linux", (⟨"1.0", true, "beta_1_0", [], []⟩ : RequirementDetails)),
        ("osx", ⟨"1.0", false, "beta_1_0", [], []⟩)].all
          fun p => p.2.source = "beta_1_0") = true) ∧
      BuildRule.aliasRule
          (generatePythonVersionAlias "rules_pip" 3
            [("linux", ⟨"1.0", true, "beta_1_0", [], []⟩),
              ("osx", ⟨"1.0", false, "beta_1_0", [], []⟩)]) ∈
        generateRulesForRequirement "rules_pip" "beta"
          [(3, [("linux", ⟨"1.0", true, "beta_1_0", [], []⟩),
            ("osx", ⟨"1.0", false, "beta_1_0", [], []⟩)])] ∧
      (generatePythonVersionAlias "rules_pip" 3
          [("linux", ⟨"1.0", true, "beta_1_0", [], []⟩),
            ("osx", ⟨"1.0", false, "beta_1_0", [], []⟩)]).actual.length =
        2 := by decide

/-- C1 (amended): when every platform of an interpreter version
resolves to the same source, the compiler emits a single unconditional
whole-version reference to that source in the package's repos file (in
addition to the per-platform references and the per-platform
conditional alias, which is always emitted); when two platforms resolve
to different sources, no whole-version reference is emitted for that
version and the conditional has exactly two arms; and in either case
the emitted graph routes every (version, platform) pair to an
environment-specific target whose pinned source is exactly that of the
uncollapsed cell. -/
theorem c1_collapsing_amended (rules_pip_repo requirement_name : String)
    (python_subtree : PythonSubtree) (pv : Nat) (ps : PlatformSubtree)
    (hmem : (pv, ps) ∈ python_subtree)
    (hnd : (ps.map Prod.fst).Nodup)
    (hcanon : ∀ p ∈ ps, convertSysPlatformToBazel p.1 = p.1) :
    (∀ src, ps ≠ [] → (∀ p ∈ ps, p.2.source = src) →
        (makePythonSpecificAlias pv, makeSourceRepoLabel src) ∈
          generateRepoVariables python_subtree) ∧
      (∀ p1 p2, ps = [p1, p2] → p1.2.source ≠ p2.2.source →
        (repoVariablesForVersion pv ps).1 =
            (ps.map fun p => (makeEnvironmentSpecificAlias pv p.1,
              makeSourceRepoLabel p.2.source)) ∧
          (generatePythonVersionAlias rules_pip_repo pv ps).actual.length =
            2) ∧
      ∀ p ∈ ps,
        alistFind (generatePythonVersionAlias rules_pip_repo pv ps).actual
            (makePlatformLabel rules_pip_repo p.1) =
          some (makeEnvironmentSpecificAlias pv p.1) ∧
        generatePyLibrary p.2 pv p.1 ∈
          generateRulesForRequirement rules_pip_repo requirement_name
            python_subtree ∧
        (generateDependencyLabels p.2).head? =
          some (makeSourceLibLabel p.2.source) := by
  refine ⟨?_, ?_, ?_⟩
  · intro src hne hall
    refine mem_generateRepoVariables hmem ?_
    rw [repoVariablesForVersion_fst_collapsed pv hne
      fun p hp => congrArg makeSourceRepoLabel (hall p hp)]
    exact List.mem_append_right _ (List.mem_singleton.mpr rfl)
  · rintro p1 p2 rfl hsrc
    have hll : makeSourceRepoLabel p1.2.source ≠
        makeSourceRepoLabel p2.2.source :=
      fun h => hsrc (makeSourceRepoLabel_injective h)
    refine ⟨repoVariablesForVersion_fst_two_diff pv p1 p2 hll, ?_⟩
    rw [generatePythonVersionAlias_actual rules_pip_repo pv _ hnd hcanon]
    rfl
  · intro p hp
    refine ⟨?_, ?_, rfl⟩
    · rw [generatePythonVersionAlias_actual rules_pip_repo pv ps hnd hcanon]
      refine alistFind_eq_of_mem ?_ ?_
      · exact List.mem_map_of_mem _ hp
      · have heq : ((ps.map fun p => (makePlatformLabel rules_pip_repo p.1,
            makeEnvironmentSpecificAlias pv p.1)).map Prod.fst) =
            (ps.map Prod.fst).map
              fun k => makePlatformLabel rules_pip_repo k := by
          rw [List.map_map, List.map_map]
          rfl
        rw [heq]
        refine List.Nodup.map_on ?_ hnd
        intro x _ y _ hxy
        exact makePlatformLabel_injective hxy
    · simp only [generateRulesForRequirement]
      refine List.mem_append_left _ ?_
      refine List.mem_flatten.mpr
        ⟨(ps.map fun q => generatePyLibrary q.2 pv q.1) ++
          [BuildRule.aliasRule
            (generatePythonVersionAlias rules_pip_repo pv ps)], ?_, ?_⟩
      · have := List.mem_map_of_mem
          (fun pvps : Nat × PlatformSubtree =>
            (pvps.2.map fun p => generatePyLibrary p.2 pvps.1 p.1) ++
              [BuildRule.aliasRule
                (generatePythonVersionAlias rules_pip_repo pvps.1 pvps.2)])
          hmem
        simpa using this
      · exact List.mem_append_left _ (List.mem_map_of_mem _ hp)

/-- C1 (witness): the amended theorem applied to the "beta" package
resolved identically on linux and osx for version 3. -/
theorem c1_collapsing_amended_witness :
    (makePythonSpecificAlias 3, makeSourceRepoLabel "beta_1_0") ∈
      generateRepoVariables
        [(3, [("linux", ⟨"1.0", true, "beta_1_0", [], []⟩),
          ("osx", ⟨"1.0", false, "beta_1_0", [], []⟩)])] :=
  (c1_collapsing_amended "rules_pip" "beta"
      [(3, [("linux", ⟨"1.0", true, "beta_1_0", [], []⟩),
        ("osx", ⟨"1.0", false, "beta_1_0", [], []⟩)])] 3
      [("linux", ⟨"1.0", true, "beta_1_0", [], []⟩),
        ("osx", ⟨"1.0", false, "beta_1_0", [], []⟩)]
      (by decide) (by decide) (by decide)).1
    "beta_1_0" (by decide) (by decide)

theorem treeCell_insertStep (t : RequirementTree) (nn : String) (pv : Nat)
    (bp : String) (d : RequirementDetails) (n : String) (p : Nat)
    (b : String) :
    treeCell (alistInsert t nn
        (alistInsert ((alistFind t nn).getD []) pv
          (alistInsert ((alistFind ((alistFind t nn).getD []) pv).getD [])
            bp d))) n p b =
      if n = nn ∧ p = pv ∧ b = bp then some d else treeCell t n p b := by
  by_cases hn : n = nn
  · subst hn
    unfold treeCell
    rw [alistFind_insert_self]
    simp only [Option.getD_some]
    by_cases hp : p = pv
    · subst hp
      rw [alistFind_insert_self]
      simp only [Option.getD_some]
      by_cases hb : b = bp
      · subst hb
        rw [alistFind_insert_self]
        simp
      · rw [alistFind_insert_ne _ _ fun h => hb h.symm]
        simp [hb]
    · rw [alistFind_insert_ne _ _ fun h => hp h.symm]
      simp [hp]
  · unfold treeCell
    rw [alistFind_insert_ne _ _ fun h => hn h.symm]
    simp [hn]

theorem treeCell_foldReqs_ne_none (pvv : Nat) (bpv : String) :
    ∀ (reqs : List (String × RequirementDetails)) (t : RequirementTree)
      (n : String) (p : Nat) (b : String),
      (treeCell (reqs.foldl (fun tree req =>
          alistInsert tree (normalizeDistributionName req.1)
            (alistInsert
              ((alistFind tree (normalizeDistributionName req.1)).getD [])
              pvv
              (alistInsert
                ((alistFind
                    ((alistFind tree (normalizeDistributionName req.1)).getD
                      []) pvv).getD []) bpv req.2))) t) n p b ≠ none ↔
        (treeCell t n p b ≠ none ∨
          ∃ req ∈ reqs,
            n = normalizeDistributionName req.1 ∧ p = pvv ∧ b = bpv))
  | [], t, n, p, b => by simp
  | r :: reqs, t, n, p, b => by
    rw [List.foldl_cons, treeCell_foldReqs_ne_none pvv bpv reqs _ n p b,
      treeCell_insertStep]
    by_cases hc : n = normalizeDistributionName r.1 ∧ p = pvv ∧ b = bpv
    · rw [if_pos hc]
      simp only [ne_eq, reduceCtorEq, not_false_eq_true, true_or, true_iff]
      exact Or.inr ⟨r, List.mem_cons_self _ _, hc⟩
    · rw [if_neg hc]
      constructor
      · rintro (h | ⟨q, hq, hqq⟩)
        · exact Or.inl h
        · exact Or.inr ⟨q, List.mem_cons_of_mem _ hq, hqq⟩
      · rintro (h | ⟨q, hq, hqq⟩)
        · exact Or.inl h
        · rcases List.mem_cons.mp hq with rfl | hq
          · exact absurd hqq hc
          · exact Or.inr ⟨q, hq, hqq⟩

theorem treeCell_foldReqs_origin (pvv : Nat) (bpv : String) :
    ∀ (reqs : List (String × RequirementDetails)) (t : RequirementTree)
      (n : String) (p : Nat) (b : String) (d : RequirementDetails),
      treeCell (reqs.foldl (fun tree req =>
          alistInsert tree (normalizeDistributionName req.1)
            (alistInsert
              ((alistFind tree (normalizeDistributionName req.1)).getD [])
              pvv
              (alistInsert
                ((alistFind
                    ((alistFind tree (normalizeDistributionName req.1)).getD
                      []) pvv).getD []) bpv req.2))) t) n p b = some d →
        (treeCell t n p b = some d ∨
          ∃ req ∈ reqs, n = normalizeDistributionName req.1 ∧ p = pvv ∧
            b = bpv ∧ req.2 = d)
  | [], t, n, p, b, d => by simp
  | r :: reqs, t, n, p, b, d => by
    rw [List.foldl_cons]
    intro h
    rcases treeCell_foldReqs_origin pvv bpv reqs _ n p b d h with h' | h'
    · rw [treeCell_insertStep] at h'
      by_cases hc : n = normalizeDistributionName r.1 ∧ p = pvv ∧ b = bpv
      · rw [if_pos hc] at h'
        exact Or.inr ⟨r, List.mem_cons_self _ _,
          hc.1, hc.2.1, hc.2.2, (Option.some.injEq _ _ ▸ h' : r.2 = d)⟩
      · rw [if_neg hc] at h'
        exact Or.inl h'
    · obtain ⟨q, hq, hqq⟩ := h'
      exact Or.inr ⟨q, List.mem_cons_of_mem _ hq, hqq⟩

theorem treeCell_foldEnvs_ne_none :
    ∀ (envs : List (String × EnvironmentDetails)) (t : RequirementTree)
      (n : String) (p : Nat) (b : String),
      (treeCell (envs.foldl (fun tree env =>
          env.2.requirements.foldl (fun tree req =>
            alistInsert tree (normalizeDistributionName req.1)
              (alistInsert
                ((alistFind tree (normalizeDistributionName req.1)).getD [])
                env.2.python_version
                (alistInsert
                  ((alistFind
                      ((alistFind tree (normalizeDistributionName req.1)).getD
                        []) env.2.python_version).getD [])
                  (convertSysPlatformToBazel env.2.sys_platform) req.2)))
            tree) t) n p b ≠ none ↔
        (treeCell t n p b ≠ none ∨
          ∃ env ∈ envs, p = env.2.python_version ∧
            b = convertSysPlatformToBazel env.2.sys_platform ∧
            ∃ req ∈ env.2.requirements, n = normalizeDistributionName req.1))
  | [], t, n, p, b => by simp
  | env :: envs, t, n, p, b => by
    rw [List.foldl_cons, treeCell_foldEnvs_ne_none envs _ n p b,
      treeCell_foldReqs_ne_none]
    constructor
    · rintro ((h | ⟨q, hq, hq1, hq2, hq3⟩) | ⟨e, he, hee⟩)
      · exact Or.inl h
      · exact Or.inr ⟨env, List.mem_cons_self _ _, hq2, hq3, q, hq, hq1⟩
      · exact Or.inr ⟨e, List.mem_cons_of_mem _ he, hee⟩
    · rintro (h | ⟨e, he, he1, he2, q, hq, hq1⟩)
      · exact Or.inl (Or.inl h)
      · rcases List.mem_cons.mp he with rfl | he
        · exact Or.inl (Or.inr ⟨q, hq, hq1, he1, he2⟩)
        · exact Or.inr ⟨e, he, he1, he2, q, hq, hq1⟩

theorem treeCell_foldEnvs_origin :
    ∀ (envs : List (String × EnvironmentDetails)) (t : RequirementTree)
      (n : String) (p : Nat) (b : String) (d : RequirementDetails),
      treeCell (envs.foldl (fun tree env =>
          env.2.requirements.foldl (fun tree req =>
            alistInsert tree (normalizeDistributionName req.1)
              (alistInsert
                ((alistFind tree (normalizeDistributionName req.1)).getD [])
                env.2.python_version
                (alistInsert
                  ((alistFind
                      ((alistFind tree (normalizeDistributionName req.1)).getD
                        []) env.2.python_version).getD [])
                  (convertSysPlatformToBazel env.2.sys_platform) req.2)))
            tree) t) n p b = some d →
        (treeCell t n p b = some d ∨
          ∃ env ∈ envs, p = env.2.python_version ∧
            b = convertSysPlatformToBazel env.2.sys_platform ∧
            ∃ req ∈ env.2.requirements,
              n = normalizeDistributionName req.1 ∧ req.2 = d)
  | [], t, n, p, b, d => by simp
  | env :: envs, t, n, p, b, d => by
    rw [List.foldl_cons]
    intro h
    rcases treeCell_foldEnvs_origin envs _ n p b d h with h' | h'
    · rcases treeCell_foldReqs_origin _ _ _ _ _ _ _ _ h' with h'' | h''
      · exact Or.inl h''
      · obtain ⟨q, hq, hq1, hq2, hq3, hq4⟩ := h''
        exact Or.inr ⟨env, List.mem_cons_self _ _, hq2, hq3, q, hq, hq1, hq4⟩
    · obtain ⟨e, he, hee⟩ := h'
      exact Or.inr ⟨e, List.mem_cons_of_mem _ he, hee⟩

/-- C8 (counterexample): environments `linux_py3` and `linux2_py3`
both canonicalize to platform "linux"; building the tree silently
overwrites the first environment's requirement entry for "a" with the
second's, so an entry *is* dropped during tree construction. -/
theorem c8_counterexample :
    ¬ ∀ env ∈ ([("linux_py3",
          (⟨3, "linux", [("a", ⟨"1.0", true, "s1", [], []⟩)]⟩ :
            EnvironmentDetails)),
        ("linux2_py3", ⟨3, "linux2", [("a", ⟨"2.0", true, "s2", [], []⟩)]⟩)] :
          List (String × EnvironmentDetails)),
      ∀ req ∈ env.2.requirements,
        treeCell
            (buildRequirementTree
              [("linux_py3", ⟨3, "linux", [("a", ⟨"1.0", true, "s1", [], []⟩)]⟩),
                ("linux2_py3",
                  ⟨3, "linux2", [("a", ⟨"2.0", true, "s2", [], []⟩)]⟩)])
            (normalizeDistributionName req.1) env.2.python_version
            (convertSysPlatformToBazel env.2.sys_platform) =
          some req.2 := by decide

/-- C8 (amended): a cell `tree[name][version][platform]` is present
iff some environment with that interpreter version and a platform tag
canonicalizing to that platform resolved a requirement normalizing to
that name, and every stored cell value originates from one such
requirement entry; however, when several entries collide on the same
(normalized name, version, canonical platform) cell, the
later-processed entry overwrites the earlier ones, which are dropped. -/
theorem c8_tree_cells_amended
    (environments : List (String × EnvironmentDetails)) (n : String) (p : Nat)
    (b : String) :
    (treeCell (buildRequirementTree environments) n p b ≠ none ↔
      ∃ env ∈ environments, p = env.2.python_version ∧
        b = convertSysPlatformToBazel env.2.sys_platform ∧
        ∃ req ∈ env.2.requirements, n = normalizeDistributionName req.1) ∧
    ∀ d, treeCell (buildRequirementTree environments) n p b = some d →
      ∃ env ∈ environments, p = env.2.python_version ∧
        b = convertSysPlatformToBazel env.2.sys_platform ∧
        ∃ req ∈ env.2.requirements,
          n = normalizeDistributionName req.1 ∧ req.2 = d := by
  constructor
  · rw [buildRequirementTree, treeCell_foldEnvs_ne_none]
    simp [treeCell, alistFind]
  · intro d h
    rw [buildRequirementTree] at h
    rcases treeCell_foldEnvs_origin _ _ _ _ _ _ h with h' | h'
    · simp [treeCell, alistFind] at h'
    · exact h'

/-- C8 (witness): the amended theorem's origin clause applied to a
concrete single-environment lock file. -/
theorem c8_tree_cells_amended_witness :
    ∃ env ∈ ([("linux_py3",
        (⟨3, "linux", [("a", ⟨"1.0", true, "s1", [], []⟩)]⟩ :
          EnvironmentDetails))] : List (String × EnvironmentDetails)),
      (3 : Nat) = env.2.python_version ∧
      "linux" = convertSysPlatformToBazel env.2.sys_platform ∧
      ∃ req ∈ env.2.requirements,
        "a" = normalizeDistributionName req.1 ∧
        req.2 = (⟨"1.0", true, "s1", [], []⟩ : RequirementDetails) :=
  (c8_tree_cells_amended
      [("linux_py3", ⟨3, "linux", [("a", ⟨"1.0", true, "s1", [], []⟩)]⟩)]
      "a" 3 "linux").2
    ⟨"1.0", true, "s1", [], []⟩ (by decide)

theorem updateLoop_sources_isSome :
    ∀ (rs : List ResolvedRequirement) (sources : List (String × Source))
      (newReqs : List (String × Requirement)) (warnings : List String)
      (k : String),
      (alistFind sources k).isSome →
      (alistFind (updateLoop rs sources newReqs warnings).1 k).isSome
  | [], _, _, _, _, h => h
  | rr :: rs, sources, newReqs, warnings, k, h => by
    simp only [updateLoop]
    exact updateLoop_sources_isSome rs _ _ _ k
      (alistFind_insert_isSome _ _ _ _ h)

theorem updateLoop_newReqs_sources :
    ∀ (rs : List ResolvedRequirement) (sources : List (String × Source))
      (newReqs : List (String × Requirement)) (warnings : List String),
      (∀ e ∈ newReqs, (alistFind sources e.2.source).isSome) →
      ∀ e ∈ (updateLoop rs sources newReqs warnings).2.1,
        (alistFind (updateLoop rs sources newReqs warnings).1
          e.2.source).isSome
  | [], _, _, _, h => h
  | rr :: rs, sources, newReqs, warnings, h => by
    simp only [updateLoop]
    refine updateLoop_newReqs_sources rs _ _ _ ?_
    intro e he
    rcases mem_alistInsert he with rfl | he
    · simp [mkRequirement, alistFind_insert_self]
    · exact alistFind_insert_isSome _ _ _ _ (h e he)

theorem updateLoop_no_touch :
    ∀ (rs : List ResolvedRequirement) (sources : List (String × Source))
      (newReqs : List (String × Requirement)) (warnings : List String)
      (nm : String),
      (∀ r ∈ rs, r.source.name ≠ nm) →
      alistFind (updateLoop rs sources newReqs warnings).1 nm =
          alistFind sources nm ∧
        (updateLoop rs sources newReqs warnings).2.2.count nm =
          warnings.count nm
  | [], _, _, _, _, _ => ⟨rfl, rfl⟩
  | rr :: rs, sources, newReqs, warnings, nm, hrs => by
    have hne : rr.source.name ≠ nm := hrs rr (List.mem_cons_self _ _)
    simp only [updateLoop]
    have ih := updateLoop_no_touch rs
      (alistInsert sources rr.source.name (newSourceOf rr.source))
      (alistInsert newReqs rr.name
        (mkRequirement rr.version rr.is_direct rr.source.name
          rr.dependencies rr.extras))
      (match alistFind sources rr.source.name with
        | none => warnings
        | some existing =>
          if newSourceOf rr.source ≠ existing then
            warnings ++ [rr.source.name] else warnings)
      nm (fun r hr => hrs r (List.mem_cons_of_mem _ hr))
    refine ⟨ih.1.trans (alistFind_insert_ne _ _ hne), ih.2.trans ?_⟩
    cases hf : alistFind sources rr.source.name with
    | none => rfl
    | some existing =>
      by_cases hd : newSourceOf rr.source ≠ existing
      · simp only [if_pos hd]
        rw [List.count_append]
        simp [List.count_singleton, hne]
      · simp only [if_neg hd]

theorem updateLoop_newReqs_preserve :
    ∀ (rs : List ResolvedRequirement) (sources : List (String × Source))
      (newReqs : List (String × Requirement)) (warnings : List String)
      (k : String),
      (∀ r ∈ rs, r.name ≠ k) →
      alistFind (updateLoop rs sources newReqs warnings).2.1 k =
        alistFind newReqs k
  | [], _, _, _, _, _ => rfl
  | rr :: rs, sources, newReqs, warnings, k, hrs => by
    simp only [updateLoop]
    exact (updateLoop_newReqs_preserve rs
      (alistInsert sources rr.source.name (newSourceOf rr.source))
      (alistInsert newReqs rr.name
        (mkRequirement rr.version rr.is_direct rr.source.name
          rr.dependencies rr.extras))
      (match alistFind sources rr.source.name with
        | none => warnings
        | some existing =>
          if newSourceOf rr.source ≠ existing then
            warnings ++ [rr.source.name]
          else warnings)
      k fun r hr => hrs r (List.mem_cons_of_mem _ hr)).trans
      (alistFind_insert_ne _ _ (hrs rr (List.mem_cons_self _ _)))

theorem updateLoop_append :
    ∀ (xs ys : List ResolvedRequirement) (sources : List (String × Source))
      (newReqs : List (String × Requirement)) (warnings : List String),
      updateLoop (xs ++ ys) sources newReqs warnings =
        updateLoop ys (updateLoop xs sources newReqs warnings).1
          (updateLoop xs sources newReqs warnings).2.1
          (updateLoop xs sources newReqs warnings).2.2
  | [], _, _, _, _ => rfl
  | x :: xs, ys, sources, newReqs, warnings => by
    simp only [List.cons_append, updateLoop]
    exact updateLoop_append xs ys _ _ _

theorem mem_setCurrentEnvRequirements
    {envs : List (String × Environment)} {current : Environment}
    {newReqs : List (String × Requirement)} {e : String × Environment}
    (h : e ∈ setCurrentEnvRequirements envs current newReqs) :
    e.2.requirements = newReqs ∨ e ∈ envs := by
  unfold setCurrentEnvRequirements at h
  cases hf : alistFind envs current.envName with
  | some e0 =>
    rw [hf] at h
    rcases mem_alistInsert h with rfl | h
    · exact Or.inl rfl
    · exact Or.inr h
  | none =>
    rw [hf] at h
    rcases List.mem_append.mp h with h | h
    · exact Or.inr h
    · simp only [List.mem_singleton] at h
      subst h
      exact Or.inl rfl

theorem setCurrentEnvRequirements_mem_self
    (envs : List (String × Environment)) (current : Environment)
    (newReqs : List (String × Requirement)) :
    ∃ e ∈ setCurrentEnvRequirements envs current newReqs,
      e.2.requirements = newReqs := by
  unfold setCurrentEnvRequirements
  cases hf : alistFind envs current.envName with
  | some e0 =>
    exact ⟨(current.envName, { e0 with requirements := newReqs }),
      mem_alistInsert_self _ _ _, rfl⟩
  | none =>
    exact ⟨(current.envName, { current with requirements := newReqs }),
      List.mem_append_right _ (List.mem_singleton.mpr rfl), rfl⟩

/-- C2: starting from a lock file satisfying the data model's
reference invariant, after `update_requirements_for_current_environment`
every Requirement in every environment references a source present in
the table, and every source in the table is referenced by at least one
Requirement in some environment (the purge). -/
theorem c2_source_table_invariant (lock : LockFile) (current : Environment)
    (resolved : List ResolvedRequirement) (hvalid : sourceRefsValid lock) :
    sourceRefsValid
        (updateRequirementsForCurrentEnvironment lock current resolved).1 ∧
      allSourcesUsed
        (updateRequirementsForCurrentEnvironment lock current resolved).1 := by
  simp only [updateRequirementsForCurrentEnvironment, purgeUnusedSources]
  constructor
  · intro e he r hr
    simp only at he hr ⊢
    have hsome :
        (alistFind (updateLoop resolved lock.sources [] []).1
          r.2.source).isSome := by
      rcases mem_setCurrentEnvRequirements he with hcur | hold
      · refine updateLoop_newReqs_sources resolved lock.sources [] []
          (by simp) r ?_
        rw [← hcur]
        exact hr
      · exact updateLoop_sources_isSome resolved lock.sources [] [] _
          (hvalid e hold r hr)
    obtain ⟨v, hv⟩ := Option.isSome_iff_exists.mp hsome
    have hused : isSourceUsed
        (setCurrentEnvRequirements lock.environments current
          (updateLoop resolved lock.sources [] []).2.1) r.2.source = true := by
      simp only [isSourceUsed, List.any_eq_true]
      exact ⟨e, he, r, hr, by simp⟩
    rw [alistFind_filter _ hv hused]
    rfl
  · intro s hs
    simp only at hs ⊢
    have := List.mem_filter.mp hs
    have hused := this.2
    simp only [isSourceUsed, List.any_eq_true] at hused
    obtain ⟨e, he, r, hr, hsrc⟩ := hused
    exact ⟨e, he, r, hr, by simpa using hsrc⟩

/-- C2 (witness): the theorem applied to an empty lock file and a
single resolved requirement. -/
theorem c2_source_table_invariant_witness :
    sourceRefsValid
        (updateRequirementsForCurrentEnvironment ⟨[], [], none⟩
          ⟨"linux", 3, []⟩
          [⟨"a", "1.0", ⟨"http://x/a.whl", some "h", false, "a_whl",
            "a.whl"⟩, true, [], []⟩]).1 ∧
      allSourcesUsed
        (updateRequirementsForCurrentEnvironment ⟨[], [], none⟩
          ⟨"linux", 3, []⟩
          [⟨"a", "1.0", ⟨"http://x/a.whl", some "h", false, "a_whl",
            "a.whl"⟩, true, [], []⟩]).1 :=
  c2_source_table_invariant ⟨[], [], none⟩ ⟨"linux", 3, []⟩
    [⟨"a", "1.0", ⟨"http://x/a.whl", some "h", false, "a_whl", "a.whl"⟩,
      true, [], []⟩] (by intro e he; simp at he)

/-- C7: when the lock file already stores a source under the name
derived for a resolved record, the merge never raises (the embedded
operation is total by construction): it overwrites the stored source
with the newly built one, emits exactly one warning for that name when
the two differ structurally, and emits none when they are equal. -/
theorem c7_drift_warning (lock : LockFile) (current : Environment)
    (pre post : List ResolvedRequirement) (rr0 : ResolvedRequirement)
    (S : Source)
    (hfind : alistFind lock.sources rr0.source.name = some S)
    (hpre : ∀ r ∈ pre, r.source.name ≠ rr0.source.name)
    (hpost : ∀ r ∈ post, r.source.name ≠ rr0.source.name)
    (hpostname : ∀ r ∈ post, r.name ≠ rr0.name) :
    (newSourceOf rr0.source ≠ S →
        (updateRequirementsForCurrentEnvironment lock current
            (pre ++ rr0 :: post)).2.count rr0.source.name = 1 ∧
        alistFind (updateRequirementsForCurrentEnvironment lock current
            (pre ++ rr0 :: post)).1.sources rr0.source.name =
          some (newSourceOf rr0.source)) ∧
    (newSourceOf rr0.source = S →
        (updateRequirementsForCurrentEnvironment lock current
            (pre ++ rr0 :: post)).2.count rr0.source.name = 0 ∧
        alistFind (updateRequirementsForCurrentEnvironment lock current
            (pre ++ rr0 :: post)).1.sources rr0.source.name =
          some (newSourceOf rr0.source)) := by
  set A := updateLoop pre lock.sources [] [] with hA
  have hApre := updateLoop_no_touch pre lock.sources [] []
    rr0.source.name hpre
  rw [← hA] at hApre
  have hfind_pre : alistFind A.1 rr0.source.name = some S :=
    hApre.1.trans hfind
  have hcount_pre : A.2.2.count rr0.source.name = 0 := hApre.2
  have hstep : updateLoop (rr0 :: post) A.1 A.2.1 A.2.2 =
      updateLoop post
        (alistInsert A.1 rr0.source.name (newSourceOf rr0.source))
        (alistInsert A.2.1 rr0.name
          (mkRequirement rr0.version rr0.is_direct rr0.source.name
            rr0.dependencies rr0.extras))
        (if newSourceOf rr0.source ≠ S then A.2.2 ++ [rr0.source.name]
          else A.2.2) := by
    simp only [updateLoop, hfind_pre]
  set F := updateLoop post
    (alistInsert A.1 rr0.source.name (newSourceOf rr0.source))
    (alistInsert A.2.1 rr0.name
      (mkRequirement rr0.version rr0.is_direct rr0.source.name
        rr0.dependencies rr0.extras))
    (if newSourceOf rr0.source ≠ S then A.2.2 ++ [rr0.source.name]
      else A.2.2) with hF
  have hpostA := updateLoop_no_touch post
    (alistInsert A.1 rr0.source.name (newSourceOf rr0.source))
    (alistInsert A.2.1 rr0.name
      (mkRequirement rr0.version rr0.is_direct rr0.source.name
        rr0.dependencies rr0.extras))
    (if newSourceOf rr0.source ≠ S then A.2.2 ++ [rr0.source.name]
      else A.2.2)
    rr0.source.name hpost
  rw [← hF] at hpostA
  have hfindF : alistFind F.1 rr0.source.name =
      some (newSourceOf rr0.source) :=
    hpostA.1.trans (alistFind_insert_self _ _ _)
  have hcountF : F.2.2.count rr0.source.name =
      (if newSourceOf rr0.source ≠ S then A.2.2 ++ [rr0.source.name]
        else A.2.2).count rr0.source.name := hpostA.2
  have hreqF : alistFind F.2.1 rr0.name =
      some (mkRequirement rr0.version rr0.is_direct rr0.source.name
        rr0.dependencies rr0.extras) := by
    have := updateLoop_newReqs_preserve post
      (alistInsert A.1 rr0.source.name (newSourceOf rr0.source))
      (alistInsert A.2.1 rr0.name
        (mkRequirement rr0.version rr0.is_direct rr0.source.name
          rr0.dependencies rr0.extras))
      (if newSourceOf rr0.source ≠ S then A.2.2 ++ [rr0.source.name]
        else A.2.2)
      rr0.name hpostname
    rw [← hF] at this
    exact this.trans (alistFind_insert_self _ _ _)
  have hloop : updateLoop (pre ++ rr0 :: post) lock.sources [] [] = F := by
    rw [updateLoop_append, ← hA, hstep, hF]
  have hcall : updateRequirementsForCurrentEnvironment lock current
      (pre ++ rr0 :: post) =
      (purgeUnusedSources
        { lock with
          environments :=
            setCurrentEnvRequirements lock.environments current F.2.1,
          sources := F.1 }, F.2.2) := by
    simp only [updateRequirementsForCurrentEnvironment, hloop]
  have hused : isSourceUsed
      (setCurrentEnvRequirements lock.environments current F.2.1)
      rr0.source.name = true := by
    simp only [isSourceUsed, List.any_eq_true]
    obtain ⟨e, he, hereq⟩ :=
      setCurrentEnvRequirements_mem_self lock.environments current F.2.1
    refine ⟨e, he, ?_⟩
    refine ⟨(rr0.name, mkRequirement rr0.version rr0.is_direct
      rr0.source.name rr0.dependencies rr0.extras), ?_, by simp [mkRequirement]⟩
    rw [hereq]
    exact alistFind_mem hreqF
  have hfinal : alistFind (updateRequirementsForCurrentEnvironment lock
      current (pre ++ rr0 :: post)).1.sources rr0.source.name =
      some (newSourceOf rr0.source) := by
    rw [hcall]
    simp only [purgeUnusedSources]
    exact alistFind_filter _ hfindF hused
  constructor
  · intro hdrift
    refine ⟨?_, hfinal⟩
    rw [hcall]
    simp only
    rw [hcountF, if_pos hdrift, List.count_append, hcount_pre]
    simp [List.count_singleton]
  · intro heq
    refine ⟨?_, hfinal⟩
    rw [hcall]
    simp only
    rw [hcountF, if_neg (fun h => h heq), hcount_pre]

/-- C7 (witness): the theorem applied to a lock file pinning "gamma"
at `http://a/gamma-1.0.whl` and a merge resolving it to
`http://a/gamma-1.1.whl` with a different sha256: one warning, source
overwritten. -/
theorem c7_drift_warning_witness :
    (updateRequirementsForCurrentEnvironment
          ⟨[], [("gamma", ⟨some "http://a/gamma-1.0.whl", none, some "s1"⟩)],
            none⟩
          ⟨"linux", 3, []⟩
          [⟨"gamma", "1.1",
            ⟨"http://a/gamma-1.1.whl", some "s2", false, "gamma",
              "gamma-1.1.whl"⟩, true, [], []⟩]).2.count "gamma" = 1 ∧
      alistFind
          (updateRequirementsForCurrentEnvironment
            ⟨[], [("gamma", ⟨some "http://a/gamma-1.0.whl", none, some "s1"⟩)],
              none⟩
            ⟨"linux", 3, []⟩
            [⟨"gamma", "1.1",
              ⟨"http://a/gamma-1.1.whl", some "s2", false, "gamma",
                "gamma-1.1.whl"⟩, true, [], []⟩]).1.sources "gamma" =
        some ⟨some "http://a/gamma-1.1.whl", none, some "s2"⟩ :=
  (c7_drift_warning
      ⟨[], [("gamma", ⟨some "http://a/gamma-1.0.whl", none, some "s1"⟩)],
        none⟩
      ⟨"linux", 3, []⟩ [] []
      ⟨"gamma", "1.1",
        ⟨"http://a/gamma-1.1.whl", some "s2", false, "gamma",
          "gamma-1.1.whl"⟩, true, [], []⟩
      ⟨some "http://a/gamma-1.0.whl", none, some "s1"⟩
      (by decide) (by decide) (by decide) (by decide)).1 (by decide)

/-- C5: loading with `create_if_missing=True` from a path whose read
fails with `ENOENT` yields the empty `LockFile`; a read failing with any
other errno (e.g. `EACCES`) propagates the `IOError` to the caller. -/
theorem c5_load_missing_path (fs : String → FileRead) (path : String) :
    (fs path = .ioError ENOENT →
        lockFileModuleLoad fs path true = .ok emptyLockFileRaw) ∧
      ∀ e, e ≠ ENOENT → fs path = .ioError e →
        lockFileModuleLoad fs path true = .error (.ioError e) := by
  constructor
  · intro h
    simp [lockFileModuleLoad, h]
  · intro e he h
    simp [lockFileModuleLoad, h, he]

/-- C5 (witness): the theorem applied to a filesystem returning
errno 2 (`ENOENT`) and one returning errno 13 (`EACCES`). -/
theorem c5_load_missing_path_witness :
    lockFileModuleLoad (fun _ => .ioError 2) "requirements-lock.json" true =
        .ok emptyLockFileRaw ∧
      lockFileModuleLoad (fun _ => .ioError 13) "requirements-lock.json"
          true =
        .error (.ioError 13) :=
  ⟨(c5_load_missing_path (fun _ => .ioError 2) "requirements-lock.json").1
      rfl,
    (c5_load_missing_path (fun _ => .ioError 13)
        "requirements-lock.json").2 13 (by decide) rfl⟩

/-- C6 (counterexample): a stored document whose requirement record
is missing the required `version` field does *not* make the load fail —
model construction never runs the deferred required-field validation, so
a `LockFile` built from the malformed data is returned (with `version`
unset). -/
theorem c6_counterexample :
    lockFileFromJson missingVersionDoc =
      .ok ⟨[("linux_py3", ⟨some "linux", some 3,
          [("a", ⟨none, some true, some "s", [], []⟩)]⟩)],
        [("s", ⟨some "http://x/a.whl", none, none⟩)], some "wheels"⟩ := by
  rfl

/-- C6 (amended): load fails with a `ParseError` when a stored field
holds a value of a structurally wrong type (e.g. an array where the
`version` string or the `environments` mapping is expected), but a
document merely missing a required field — such as a Requirement
without `version` — is not rejected: load returns a `LockFile` with the
field unset, since required-field validation is deferred and never
invoked on this path. -/
theorem c6_parse_errors_amended :
    (∀ (elems : List Json) (rest : List (String × Json)),
        (requirementFromJson
          (.obj (("version", .arr elems) :: rest))).toOption = none) ∧
      (∀ (elems : List Json) (rest : List (String × Json)),
        (lockFileFromJson
          (.obj (("environments", .arr elems) :: rest))).toOption = none) ∧
      (lockFileFromJson missingVersionDoc).toOption.isSome = true := by
  refine ⟨?_, ?_, rfl⟩
  · intro elems rest
    simp only [requirementFromJson]
    split
    · rfl
    · rfl
  · intro elems rest
    simp only [lockFileFromJson]
    split
    · rfl
    · rfl

end RulesPip
